import Mathlib

/-!
Verification of the zdm-proxy request-classification and rewrite engine.

The repository snapshot under inspection contains the unit tests of the
classifier (`TestInspectFrame`) and of the rewriter (`TestModifyFrame`)
together with the integration-test cluster setup, but not the classifier
and rewriter bodies themselves.  Following the specification (spec.md
sections 3, 4.1-4.5, 4.7 and 8), the missing functions are modelled here
as executable Lean definitions; frame bodies are modelled at the decoded
message level (the byte codec is an out-of-scope collaborator per spec
section 1, and it is injective, so equality of modelled bodies mirrors
equality of body bytes).  Definitions carry the source names where Lean
allows it.
-/

namespace ZdmProxy

/-- Forward decision for a request: Origin only, Target only, or Both
clusters (spec section 3, `ForwardDecision`). -/
inductive ForwardDecision where
  | origin
  | target
  | both
deriving DecidableEq, Repr

/-- Statement types recognised by the lite CQL parser (spec section 3,
`QueryInfo`). -/
inductive StatementType where
  | select
  | insert
  | update
  | delete
  | batch
  | use
  | other
deriving DecidableEq, Repr

/-- Kind of one assignment value inside INSERT VALUES or UPDATE SET
(spec section 3): a literal, a bind marker, or a function call. -/
inductive AssignmentKind where
  | literal (value : String)
  | bindMarker
  | functionCall (name : String) (args : List String)
deriving DecidableEq, Repr

/-- One `column = value` binding (spec section 3, `assignment`). -/
structure Assignment where
  columnName : String
  kind : AssignmentKind
deriving DecidableEq, Repr

/-- Modelled from the spec: the Go method `assignment.isLiteral` used by
`TestModifyFrame`. -/
def Assignment.isLiteral (a : Assignment) : Bool :=
  match a.kind with
  | .literal _ => true
  | _ => false

/-- Modelled from the spec: the Go method `assignment.isFunctionCall` used
by `TestModifyFrame`. -/
def Assignment.isFunctionCall (a : Assignment) : Bool :=
  match a.kind with
  | .functionCall _ _ => true
  | _ => false

/-- One VALUES tuple or SET clause (spec section 3, `assignmentsGroup`). -/
structure AssignmentsGroup where
  assignments : List Assignment
deriving DecidableEq, Repr

/-- Parse result for a CQL string (spec section 3, `QueryInfo`). -/
structure QueryInfo where
  statementType : StatementType
  keyspace : Option String
  table : Option String
  assignmentsGroups : List AssignmentsGroup
deriving DecidableEq, Repr

/-! ### Lite CQL tokenizer (spec section 4.1)

Tokens are represented as lists of characters.  Whitespace separates
tokens; the punctuation characters of the claims' queries, namely
parentheses and commas, are tokens of their own. -/

/-- Whitespace characters recognised by the tokenizer. -/
def isSpaceChar (c : Char) : Bool :=
  c = ' ' || c = '\t' || c = '\n' || c = '\r'

/-- Self-delimiting punctuation characters. -/
def isPunctChar (c : Char) : Bool :=
  c = '(' || c = ')' || c = ','

/-- Ordinary token characters: everything that is neither whitespace nor
punctuation. -/
def isOrdChar (c : Char) : Bool :=
  !(isSpaceChar c || isPunctChar c)

/-- Tokenizer worker: `acc` holds the reversed characters of the token
currently being read. -/
def tokenizeAux : List Char → List Char → List (List Char)
  | [], acc => if acc.isEmpty then [] else [acc.reverse]
  | c :: cs, acc =>
    if isSpaceChar c then
      if acc.isEmpty then tokenizeAux cs [] else acc.reverse :: tokenizeAux cs []
    else if isPunctChar c then
      if acc.isEmpty then [c] :: tokenizeAux cs []
      else acc.reverse :: [c] :: tokenizeAux cs []
    else
      tokenizeAux cs (c :: acc)

/-- Split a character list into tokens. -/
def tokenize (s : List Char) : List (List Char) :=
  tokenizeAux s []

/-- Render a token list back to characters, separating tokens with single
spaces. -/
def renderTokens : List (List Char) → List Char
  | [] => []
  | [t] => t
  | t :: t2 :: ts => t ++ ' ' :: renderTokens (t2 :: ts)

/-- Lower-case a token (spec section 4.2: matching is case-insensitive,
unquoted identifiers are lower-cased). -/
def lowerTok (t : List Char) : List Char :=
  t.map Char.toLower

/-- Statement type of the leading keyword (spec section 4.1). -/
def keywordType (t : List Char) : StatementType :=
  if lowerTok t = "select".toList then .select
  else if lowerTok t = "insert".toList then .insert
  else if lowerTok t = "update".toList then .update
  else if lowerTok t = "delete".toList then .delete
  else if lowerTok t = "batch".toList then .batch
  else if lowerTok t = "use".toList then .use
  else .other

/-- Split a table-reference token at its first dot into an optional
keyspace part and the table part. -/
def splitDotAux : List Char → List Char → Option (List Char) × List Char
  | [], acc => (none, acc.reverse)
  | c :: cs, acc => if c = '.' then (some acc.reverse, cs) else splitDotAux cs (c :: acc)

/-- Split a qualified name at its first dot. -/
def splitDot (t : List Char) : Option (List Char) × List Char :=
  splitDotAux t []

/-- Token following the first `FROM` keyword, if any. -/
def findFromTable : List (List Char) → Option (List Char)
  | [] => none
  | t :: ts => if lowerTok t = "from".toList then ts.head? else findFromTable ts

/-- Token following the first `INTO` keyword, if any. -/
def findIntoTable : List (List Char) → Option (List Char)
  | [] => none
  | t :: ts => if lowerTok t = "into".toList then ts.head? else findIntoTable ts

/-- Take tokens up to the parenthesis closing the current depth.  Returns
the tokens inside and, when the closing parenthesis is found, the tokens
after it. -/
def takeBal : List (List Char) → Nat → List (List Char) × Option (List (List Char))
  | [], _ => ([], none)
  | t :: ts, d =>
    if t = [')'] then
      if d = 0 then ([], some ts)
      else
        let r := takeBal ts (d - 1)
        (t :: r.1, r.2)
    else if t = ['('] then
      let r := takeBal ts (d + 1)
      (t :: r.1, r.2)
    else
      let r := takeBal ts d
      (t :: r.1, r.2)

/-- Split a token list at its top-level commas, tracking parenthesis
depth; `acc` holds the reversed tokens of the current group. -/
def splitTopAux : List (List Char) → Nat → List (List Char) → List (List (List Char))
  | [], _, acc => [acc.reverse]
  | t :: ts, d, acc =>
    if t = [','] && d = 0 then acc.reverse :: splitTopAux ts 0 []
    else if t = ['('] then splitTopAux ts (d + 1) (t :: acc)
    else if t = [')'] then splitTopAux ts (d - 1) (t :: acc)
    else splitTopAux ts d (t :: acc)

/-- Split a token list at its top-level commas. -/
def splitTop (ts : List (List Char)) : List (List (List Char)) :=
  splitTopAux ts 0 []

/-- Rejoin comma-separated groups of tokens. -/
def joinComma : List (List (List Char)) → List (List Char)
  | [] => []
  | [g] => g
  | g :: g2 :: gs => g ++ [','] :: joinComma (g2 :: gs)

/-- Classify one comma-separated value of a VALUES tuple (spec section
4.1): a `?` or `:name` token is a bind marker, an identifier followed by a
parenthesis is a function call, anything else is a literal. -/
def classifyValue (g : List (List Char)) : AssignmentKind :=
  match g with
  | [] => .literal ""
  | [t] =>
    if t = ['?'] || t.head? = some ':' then .bindMarker
    else .literal (String.mk t)
  | t1 :: t2 :: rest =>
    if t2 = ['('] then .functionCall (String.mk (lowerTok t1)) (rest.map String.mk)
    else .literal (String.mk (renderTokens (t1 :: t2 :: rest)))

/-- Tokens after the first opening parenthesis, if any. -/
def afterOpen : List (List Char) → Option (List (List Char))
  | [] => none
  | t :: ts => if t = ['('] then some ts else afterOpen ts

/-- Column names of an INSERT statement, taken from the parenthesised list
before the VALUES keyword. -/
def extractColumns (p : List (List Char)) : List String :=
  match afterOpen p with
  | none => []
  | some ts => (splitTop (takeBal ts 0).1).map (fun g => String.mk (renderTokens g))

/-- Locate the `VALUES` keyword directly followed by an opening
parenthesis; returns the tokens before it, the keyword token itself and
the tokens after the parenthesis. -/
def splitAtValues : List (List Char) → Option (List (List Char) × List Char × List (List Char))
  | [] => none
  | t :: ts =>
    if lowerTok t = "values".toList && ts.head? = some ['('] then
      some ([], t, ts.tail)
    else
      match splitAtValues ts with
      | some (p, v, a) => some (t :: p, v, a)
      | none => none

/-- Decompose the tokens after the INSERT keyword into the tokens before
VALUES, the VALUES keyword token, the comma-separated value groups of the
tuple, and the tokens after the closing parenthesis.  Returns `none` when
the statement does not have that shape; parsing failure is never fatal
(spec section 4.1). -/
def insertParts (rest : List (List Char)) :
    Option (List (List Char) × List Char × List (List (List Char)) × List (List Char)) :=
  match splitAtValues rest with
  | none => none
  | some (p, v, a) =>
    match takeBal a 0 with
    | (vals, some suffix) => some (p, v, splitTop vals, suffix)
    | (_, none) => none

/-- Keyspace and table referenced by a statement, from the token following
the given keyword, lower-cased. -/
def tableRefOf (t : Option (List Char)) : Option String × Option String :=
  match t with
  | none => (none, none)
  | some tok =>
    let p := splitDot (lowerTok tok)
    (p.1.map String.mk, some (String.mk p.2))

/-- Modelled from the spec: the lite CQL parser of spec section 4.1,
producing the `QueryInfo` of spec section 3.  It recognises the leading
keyword, the `FROM` and `INTO` table references, and for INSERT the
column list and the VALUES tuple as one assignments group; unrecognised
shapes degrade to a `QueryInfo` without assignments. -/
def parseTokens (ts : List (List Char)) : QueryInfo :=
  match ts with
  | [] => ⟨.other, none, none, []⟩
  | kw :: rest =>
    match keywordType kw with
    | .select =>
      let r := tableRefOf (findFromTable rest)
      ⟨.select, r.1, r.2, []⟩
    | .insert =>
      let r := tableRefOf (findIntoTable rest)
      match insertParts rest with
      | none => ⟨.insert, r.1, r.2, []⟩
      | some (p, _, groups, _) =>
        ⟨.insert, r.1, r.2,
         [⟨List.zipWith (fun c g => Assignment.mk c (classifyValue g)) (extractColumns p) groups⟩]⟩
    | st => ⟨st, none, none, []⟩

/-- Parse a CQL string into a `QueryInfo`. -/
def parseQuery (cql : String) : QueryInfo :=
  parseTokens (tokenize cql.toList)

/-! ### Frames and decode contexts (spec sections 3 and 4.7) -/

/-- Decoded request body, discriminated by opcode (spec section 3,
`DecodedRequest`).  The byte codec is injective, so this models the body
bytes of a `RawFrame`. -/
inductive FrameBody where
  | query (cql : String)
  | prepare (cql : String) (keyspace : String)
  | execute (preparedId : String)
  | batch (children : List String)
  | register (events : List String)
  | startup
  | options
  | authResponse
deriving DecidableEq, Repr

/-- Native-protocol opcode of a body (spec section 6 frame layout). -/
def FrameBody.opcodeOf : FrameBody → Nat
  | .startup => 1
  | .options => 5
  | .query _ => 7
  | .prepare _ _ => 9
  | .execute _ => 10
  | .register _ => 11
  | .batch _ => 13
  | .authResponse => 15

/-- Raw request frame: header fields plus the body (spec section 3,
`RawFrame`). -/
structure RawFrame where
  version : Nat
  flags : Nat
  streamId : Nat
  body : FrameBody
deriving DecidableEq, Repr

/-- Opcode header field, determined by the body. -/
def RawFrame.opcode (f : RawFrame) : Nat :=
  f.body.opcodeOf

/-- Frame decode context: a raw frame plus the memoised query inspection
(spec section 4.7, `FrameDecodeContext`). -/
structure FrameDecodeContext where
  frame : RawFrame
  queryInfo : Option QueryInfo
deriving DecidableEq, Repr

/-- Fresh decode context wrapping a frame, before any inspection, as built
by the unit tests (`frameDecodeContext{frame: f}`). -/
def mkContext (f : RawFrame) : FrameDecodeContext :=
  ⟨f, none⟩

/-- Modelled from the spec: `GetOrInspectQuery` of spec section 4.7 -
return the memoised `QueryInfo` or parse the CQL carried by a QUERY or
PREPARE body. -/
def FrameDecodeContext.GetOrInspectQuery (ctx : FrameDecodeContext) : Except String QueryInfo :=
  match ctx.queryInfo with
  | some qi => .ok qi
  | none =>
    match ctx.frame.body with
    | .query cql => .ok (parseQuery cql)
    | .prepare cql _ => .ok (parseQuery cql)
    | _ => .error "frame is not a query or prepare request"

/-! ### Prepared-statement cache and classification (spec sections 4.2,
4.3 and 4.5) -/

/-- Classification and rewrite metadata stored for a prepared statement
(spec section 3, `PreparedStatementInfo`; the unit tests construct it from
the forward decision alone). -/
structure PreparedStatementInfo where
  forwardDecision : ForwardDecision
deriving DecidableEq, Repr

/-- Constructor mirroring the Go `NewPreparedStatementInfo`. -/
def NewPreparedStatementInfo (d : ForwardDecision) : PreparedStatementInfo :=
  ⟨d⟩

/-- Classification result for a request: a tagged variant carrying the
forward decision (spec sections 3 and 9). -/
inductive StatementInfo where
  | generic (forwardDecision : ForwardDecision)
  | prepared (psInfo : PreparedStatementInfo)
deriving DecidableEq, Repr

/-- Constructor mirroring the Go `NewGenericStatementInfo`. -/
def NewGenericStatementInfo (d : ForwardDecision) : StatementInfo :=
  .generic d

/-- Prepared-statement cache: map from prepared ID bytes to the stored
info (spec section 4.5), modelled as an association list. -/
abbrev PreparedStatementCache := List (String × PreparedStatementInfo)

/-- Cache lookup by prepared ID. -/
def lookupPS : PreparedStatementCache → String → Option PreparedStatementInfo
  | [], _ => none
  | (k, v) :: rest, pid => if k = pid then some v else lookupPS rest pid

/-- Intercepted system tables (spec section 4.2): `system.local`,
`system.peers`, `system.peers_v2`, any table of `system_auth`, and
`dse_insights.tokens`; names are lower-cased. -/
def interceptedTable (ks : String) (tbl : String) : Bool :=
  (ks = "system" && (tbl = "local" || tbl = "peers" || tbl = "peers_v2"))
  || ks = "system_auth"
  || (ks = "dse_insights" && tbl = "tokens")

/-- Whether the query reads an intercepted system table; an unqualified
table name is resolved against the connection's current `USE` keyspace
`km` (spec sections 4.2 and 4.3). -/
def QueryInfo.interceptedSystemQuery (qi : QueryInfo) (km : Option String) : Bool :=
  match qi.table with
  | none => false
  | some tbl =>
    match qi.keyspace with
    | some ks => interceptedTable ks tbl
    | none =>
      match km with
      | some ks => interceptedTable ks tbl
      | none => false

/-- Forward decision for a SELECT (spec section 4.3): Target for
intercepted system tables regardless of configuration, otherwise Target
exactly when `forwardReadsToTarget` is set. -/
def selectDecision (qi : QueryInfo) (km : Option String) (forwardReadsToTarget : Bool) :
    ForwardDecision :=
  if qi.interceptedSystemQuery km then .target
  else if forwardReadsToTarget then .target
  else .origin

/-- Modelled from the spec: the classifier `inspectFrame` of spec section
4.3, whose body is not part of this snapshot.  Decision table by opcode:
QUERY and PREPARE parse the CQL and apply the SELECT rule, any other
statement goes to Both; EXECUTE consults the prepared-statement cache and,
following the expectations of `TestInspectFrame` (which require a
`GenericStatementInfo` for cache hits), returns a generic info carrying
the stored decision, or fails with the mandated message on a miss; BATCH,
REGISTER and OPTIONS always go to Both; STARTUP and AUTH_RESPONSE go to
Origin. -/
def inspectFrame (ctx : FrameDecodeContext) (psCache : PreparedStatementCache)
    (km : Option String) (forwardReadsToTarget : Bool) : Except String StatementInfo :=
  match ctx.frame.body with
  | .query _ =>
    match ctx.GetOrInspectQuery with
    | .error e => .error e
    | .ok qi =>
      if qi.statementType = .select then
        .ok (.generic (selectDecision qi km forwardReadsToTarget))
      else
        .ok (.generic .both)
  | .prepare _ _ =>
    match ctx.GetOrInspectQuery with
    | .error e => .error e
    | .ok qi =>
      if qi.statementType = .select then
        .ok (.prepared (NewPreparedStatementInfo (selectDecision qi km forwardReadsToTarget)))
      else
        .ok (.prepared (NewPreparedStatementInfo .both))
  | .execute pid =>
    match lookupPS psCache pid with
    | some info => .ok (.generic info.forwardDecision)
    | none =>
      .error ("The preparedID of the statement to be executed (" ++ pid
        ++ ") does not exist in the proxy cache")
  | .batch _ => .ok (.generic .both)
  | .register _ => .ok (.generic .both)
  | .startup => .ok (.generic .origin)
  | .options => .ok (.generic .both)
  | .authResponse => .ok (.generic .origin)

/-! ### Mock frames of the unit tests -/

/-- Frame built by the test helper `mockFrame`: protocol version 4, no
flags, stream id 1. -/
def mockFrame (body : FrameBody) : RawFrame :=
  ⟨4, 0, 1, body⟩

/-- QUERY frame built by the test helper `mockQueryFrame`. -/
def mockQueryFrame (q : String) : RawFrame :=
  mockFrame (.query q)

/-- PREPARE frame built by the test helper `mockPrepareFrame`. -/
def mockPrepareFrame (q : String) : RawFrame :=
  mockFrame (.prepare q "")

/-- EXECUTE frame built by the test helper `mockExecuteFrame`. -/
def mockExecuteFrame (pid : String) : RawFrame :=
  mockFrame (.execute pid)

/-- The prepared-statement cache populated by `TestInspectFrame`. -/
def testPsCache : PreparedStatementCache :=
  [("BOTH", NewPreparedStatementInfo .both),
   ("ORIGIN", NewPreparedStatementInfo .origin),
   ("TARGET", NewPreparedStatementInfo .target)]

/-! ### Rewriter (spec section 4.4) -/

/-- Non-deterministic function names whose calls must be replaced by
pre-computed literals (spec section 4.4). -/
def nondeterministicNames : List String :=
  ["now", "uuid", "currenttimestamp", "currentdate", "currenttime", "currenttimeuuid"]

/-- Whether an assignment kind is a call of a non-deterministic function. -/
def AssignmentKind.isNondeterministicCall : AssignmentKind → Bool
  | .functionCall n _ => nondeterministicNames.contains n
  | _ => false

/-- Whether any assignment of the query is a non-deterministic function
call, making the frame eligible for rewriting (spec section 4.4). -/
def QueryInfo.hasNondeterministicCall (qi : QueryInfo) : Bool :=
  qi.assignmentsGroups.any (fun g => g.assignments.any (fun a => a.kind.isNondeterministicCall))

/-- Replace a non-deterministic function-call assignment by the
pre-computed literal `sample`; other assignments are unchanged. -/
def rewriteAssignment (sample : String) (a : Assignment) : Assignment :=
  if a.kind.isNondeterministicCall then ⟨a.columnName, .literal sample⟩ else a

/-- Rewrite a `QueryInfo`: same statement type, table reference,
assignment-group count and assignment indices; only non-deterministic
function-call assignments change, becoming literals (spec section 4.4). -/
def rewriteQueryInfo (sample : String) (qi : QueryInfo) : QueryInfo :=
  ⟨qi.statementType, qi.keyspace, qi.table,
   qi.assignmentsGroups.map (fun g => ⟨g.assignments.map (rewriteAssignment sample)⟩)⟩

/-- Replace a value group that is a non-deterministic function call by the
single literal token `sample`; other groups are kept verbatim. -/
def rewriteGroup (sample : List Char) (g : List (List Char)) : List (List Char) :=
  if (classifyValue g).isNondeterministicCall then [sample] else g

/-- Rewrite a token list: for an INSERT whose VALUES tuple was located,
replace each non-deterministic function-call value by the literal sample
and keep every other token; any other statement is left untouched. -/
def rewriteTokens (sample : List Char) (ts : List (List Char)) : List (List Char) :=
  match ts with
  | [] => ts
  | kw :: rest =>
    if keywordType kw = .insert then
      match insertParts rest with
      | none => ts
      | some (p, v, groups, suffix) =>
        kw :: (p ++ v :: ['('] :: (joinComma (groups.map (rewriteGroup sample)) ++ [')'] :: suffix))
    else ts

/-- Rewrite a CQL string by replacing non-deterministic function calls
with the literal `sample`. -/
def rewriteQuery (sample : String) (cql : String) : String :=
  String.mk (renderTokens (rewriteTokens sample.toList (tokenize cql.toList)))

/-- Modelled from the spec: the rewriter `modifyFrame` of spec section
4.4, whose body is not part of this snapshot.  The time/UUID sample drawn
once per invocation is passed explicitly as `sample` (spec section 9:
tests must inject a deterministic source).  When the inspected query has
at least one non-deterministic function-call assignment, a new frame is
produced with identical header fields and a rewritten body, and the new
context memoises the rewritten `QueryInfo`; otherwise the decode context
is returned unchanged apart from memoising the inspection. -/
def modifyFrame (sample : String) (ctx : FrameDecodeContext) : Except String FrameDecodeContext :=
  match ctx.GetOrInspectQuery with
  | .error e => .error e
  | .ok qi =>
    if qi.hasNondeterministicCall then
      match ctx.frame.body with
      | .query cql =>
        .ok ⟨⟨ctx.frame.version, ctx.frame.flags, ctx.frame.streamId,
              .query (rewriteQuery sample cql)⟩,
             some (rewriteQueryInfo sample qi)⟩
      | .prepare cql ks =>
        .ok ⟨⟨ctx.frame.version, ctx.frame.flags, ctx.frame.streamId,
              .prepare (rewriteQuery sample cql) ks⟩,
             some (rewriteQueryInfo sample qi)⟩
      | _ => .ok ⟨ctx.frame, some qi⟩
    else
      .ok ⟨ctx.frame, some qi⟩

/-! ### Integration-test cluster ids
(src/integration-tests/setup/testcluster.go) -/

/-- Largest value of a Go `uint64` (`math.MaxUint64`). -/
def maxUint64 : Nat := 2 ^ 64 - 1

/-- Origin cluster id drawn in `createClusters` (testcluster.go line 76)
and `NewTemporaryCcmTestSetup` (line 165):
`env.Rand.Uint64() % (math.MaxUint64 - 1)`, with `uint64` arithmetic
modelled modulo `2 ^ 64`. -/
def firstClusterId (randVal : Nat) : Nat :=
  randVal % 2 ^ 64 % (maxUint64 - 1)

/-- Target cluster id computed in `createClusters` (testcluster.go line
82) and `NewTemporaryCcmTestSetup` (line 171): `firstClusterId + 1` in
`uint64` arithmetic. -/
def secondClusterId (randVal : Nat) : Nat :=
  (firstClusterId randVal + 1) % 2 ^ 64

/-- Well-formed token: a single punctuation character, or a nonempty run
of ordinary characters.  The tokenizer only produces such tokens, and
rendering a list of such tokens tokenizes back to the same list. -/
def goodTok : List Char → Bool
  | [] => false
  | [c] => isOrdChar c || isPunctChar c
  | c :: cs => isOrdChar c && cs.all isOrdChar

end ZdmProxy

namespace ZdmProxy

/-! ## Claim theorems -/

/-- C1: for every QUERY or PREPARE frame carrying a SELECT statement,
`inspectFrame` routes it to Target when the table is an intercepted system
table, regardless of `forwardReadsToTarget`; otherwise it routes to Target
exactly when `forwardReadsToTarget` is true and to Origin when it is
false. -/
theorem inspectFrame_select_routing (cql : String) (psCache : PreparedStatementCache)
    (km : Option String) (fwd : Bool)
    (hsel : (parseQuery cql).statementType = .select) :
    inspectFrame (mkContext (mockQueryFrame cql)) psCache km fwd =
      .ok (.generic (if (parseQuery cql).interceptedSystemQuery km then .target
                     else if fwd then .target else .origin)) ∧
    inspectFrame (mkContext (mockPrepareFrame cql)) psCache km fwd =
      .ok (.prepared (NewPreparedStatementInfo
        (if (parseQuery cql).interceptedSystemQuery km then .target
         else if fwd then .target else .origin))) := by
  constructor
  · simp [inspectFrame, mkContext, mockQueryFrame, mockFrame,
      FrameDecodeContext.GetOrInspectQuery, hsel, selectDecision]
  · simp [inspectFrame, mkContext, mockPrepareFrame, mockFrame,
      FrameDecodeContext.GetOrInspectQuery, hsel, selectDecision]

/-- Witness for C1: `SELECT * FROM system.local` with
`forwardReadsToTarget = false` is routed to Target. -/
theorem inspectFrame_select_routing_witness :
    (parseQuery "SELECT * FROM system.local").statementType = .select ∧
    inspectFrame (mkContext (mockQueryFrame "SELECT * FROM system.local")) testPsCache none false =
      .ok (.generic .target) := by
  refine ⟨by decide, ?_⟩
  have h := (inspectFrame_select_routing "SELECT * FROM system.local"
    testPsCache none false (by decide)).1
  rw [show (parseQuery "SELECT * FROM system.local").interceptedSystemQuery none = true
    from by decide] at h
  simpa using h

/-- C2 counterexample: the prepared ID `ORIGIN` is present in the test
cache storing `PreparedStatementInfo(Origin)`, yet `inspectFrame` returns
a `GenericStatementInfo(Origin)`, which is not the stored
`PreparedStatementInfo`. -/
theorem inspectFrame_execute_counterexample :
    lookupPS testPsCache "ORIGIN" = some (NewPreparedStatementInfo .origin) ∧
    inspectFrame (mkContext (mockExecuteFrame "ORIGIN")) testPsCache none false =
      .ok (NewGenericStatementInfo .origin) ∧
    NewGenericStatementInfo .origin ≠ .prepared (NewPreparedStatementInfo .origin) := by
  refine ⟨by decide, rfl, by decide⟩

/-- C2 (amended): for every EXECUTE frame whose prepared ID is present in
the cache, `inspectFrame` returns a `GenericStatementInfo` carrying the
stored info's forward decision; in particular an EXECUTE of an ID cached
from a PREPARE classification is forwarded with exactly the decision the
PREPARE was classified to. -/
theorem inspectFrame_execute_cached_decision
    (pid : String) (psCache : PreparedStatementCache) (km : Option String) (fwd : Bool)
    (info : PreparedStatementInfo) (h : lookupPS psCache pid = some info) :
    inspectFrame (mkContext (mockExecuteFrame pid)) psCache km fwd =
      .ok (.generic info.forwardDecision) ∧
    ∀ (cql : String) (pinfo : PreparedStatementInfo),
      inspectFrame (mkContext (mockPrepareFrame cql)) psCache km fwd = .ok (.prepared pinfo) →
      inspectFrame (mkContext (mockExecuteFrame pid)) ((pid, pinfo) :: psCache) km fwd =
        .ok (.generic pinfo.forwardDecision) := by
  constructor
  · simp [inspectFrame, mkContext, mockExecuteFrame, mockFrame, h]
  · intro cql pinfo _
    simp [inspectFrame, mkContext, mockExecuteFrame, mockFrame, lookupPS]

/-- Witness for C2 (amended): an EXECUTE of the cached ID `TARGET` is
forwarded with the stored decision Target. -/
theorem inspectFrame_execute_cached_decision_witness :
    lookupPS testPsCache "TARGET" = some (NewPreparedStatementInfo .target) ∧
    inspectFrame (mkContext (mockExecuteFrame "TARGET")) testPsCache none false =
      .ok (.generic .target) := by
  refine ⟨by decide, ?_⟩
  exact (inspectFrame_execute_cached_decision "TARGET" testPsCache none false
    (NewPreparedStatementInfo .target) (by decide)).1

/-- C3: for every EXECUTE frame whose prepared ID is absent from the
cache, `inspectFrame` fails with exactly the message
`The preparedID of the statement to be executed (<id>) does not exist in
the proxy cache`. -/
theorem inspectFrame_execute_unknown_id_error
    (pid : String) (psCache : PreparedStatementCache) (km : Option String) (fwd : Bool)
    (h : lookupPS psCache pid = none) :
    inspectFrame (mkContext (mockExecuteFrame pid)) psCache km fwd =
      .error ("The preparedID of the statement to be executed (" ++ pid
        ++ ") does not exist in the proxy cache") := by
  simp [inspectFrame, mkContext, mockExecuteFrame, mockFrame, h]

/-- Witness for C3: the ASCII ID `UNKNOWN` is absent from the test cache
and produces exactly the mandated message. -/
theorem inspectFrame_execute_unknown_id_error_witness :
    lookupPS testPsCache "UNKNOWN" = none ∧
    inspectFrame (mkContext (mockExecuteFrame "UNKNOWN")) testPsCache none false =
      .error "The preparedID of the statement to be executed (UNKNOWN) does not exist in the proxy cache" := by
  refine ⟨by decide, ?_⟩
  have h := inspectFrame_execute_unknown_id_error "UNKNOWN" testPsCache none false (by decide)
  simpa using h

/-- C7: `inspectFrame` classifies the remaining opcodes by fixed
defaults: BATCH (with any children, in particular a lone INSERT) is Both,
REGISTER is Both, OPTIONS is Both, and STARTUP is Origin only. -/
theorem inspectFrame_opcode_defaults (psCache : PreparedStatementCache)
    (km : Option String) (fwd : Bool) (children : List String) (events : List String) :
    inspectFrame (mkContext (mockFrame (.batch children))) psCache km fwd =
      .ok (.generic .both) ∧
    inspectFrame (mkContext (mockFrame (.register events))) psCache km fwd =
      .ok (.generic .both) ∧
    inspectFrame (mkContext (mockFrame .options)) psCache km fwd = .ok (.generic .both) ∧
    inspectFrame (mkContext (mockFrame .startup)) psCache km fwd = .ok (.generic .origin) :=
  ⟨rfl, rfl, rfl, rfl⟩

/-- C8: `inspectFrame` is deterministic - two invocations with equal
frames, equal cache contents, the same connection keyspace and equal
`forwardReadsToTarget` values produce the same classification result;
being a pure function of these inputs it has no hidden dependency on time
or other ambient state. -/
theorem inspectFrame_deterministic (f1 f2 : RawFrame)
    (cache1 cache2 : PreparedStatementCache) (km : Option String) (b1 b2 : Bool)
    (hf : f1 = f2) (hcache : cache1 = cache2) (hb : b1 = b2) :
    inspectFrame (mkContext f1) cache1 km b1 = inspectFrame (mkContext f2) cache2 km b2 := by
  subst hf; subst hcache; subst hb; rfl

/-- Witness for C8: two invocations on the same SELECT frame and cache
agree. -/
theorem inspectFrame_deterministic_witness :
    inspectFrame (mkContext (mockQueryFrame "SELECT blah FROM ks1.t2")) testPsCache none false =
      inspectFrame (mkContext (mockQueryFrame "SELECT blah FROM ks1.t2")) testPsCache none false :=
  inspectFrame_deterministic _ _ _ _ none _ _ rfl rfl rfl

/-- C10: the Origin cluster id is drawn modulo `MaxUint64 - 1`, hence is
at most `MaxUint64 - 2`; the Target cluster id equals the Origin id plus
one, the addition never overflows a `uint64`, and the two ids are always
distinct. -/
theorem clusterIds_distinct_no_overflow (randVal : Nat) :
    firstClusterId randVal ≤ maxUint64 - 2 ∧
    firstClusterId randVal + 1 < 2 ^ 64 ∧
    secondClusterId randVal = firstClusterId randVal + 1 ∧
    secondClusterId randVal ≠ firstClusterId randVal := by
  have hM : (2 : Nat) ^ 64 = 18446744073709551616 := by norm_num
  have h1 : firstClusterId randVal < maxUint64 - 1 := by
    unfold firstClusterId
    exact Nat.mod_lt _ (by rw [maxUint64, hM]; omega)
  have h2 : secondClusterId randVal = firstClusterId randVal + 1 := by
    unfold secondClusterId
    apply Nat.mod_eq_of_lt
    rw [maxUint64, hM] at h1
    omega
  rw [maxUint64, hM] at h1
  refine ⟨by rw [maxUint64, hM]; omega, by rw [hM]; omega, h2, by omega⟩

/-! ### Helper lemmas about `modifyFrame` -/

/-- Inspection of a fresh context succeeds exactly for QUERY and PREPARE
bodies, and yields the parse of the carried CQL. -/
theorem getOrInspectQuery_ok_body (f : RawFrame) (qi : QueryInfo)
    (h : (mkContext f).GetOrInspectQuery = .ok qi) :
    (∃ cql, f.body = .query cql ∧ qi = parseQuery cql) ∨
    (∃ cql ks, f.body = .prepare cql ks ∧ qi = parseQuery cql) := by
  cases hb : f.body <;>
    simp [mkContext, FrameDecodeContext.GetOrInspectQuery, hb] at h
  case query cql => exact Or.inl ⟨cql, rfl, h.symm⟩
  case prepare cql ks => exact Or.inr ⟨cql, ks, rfl, h.symm⟩

/-- Map of a function that fixes every member is the identity. -/
theorem map_eq_self_of {α : Type} (f : α → α) :
    ∀ (l : List α), (∀ x ∈ l, f x = x) → l.map f = l := by
  intro l
  induction l with
  | nil => intro _; rfl
  | cons x l ih =>
    intro h
    simp only [List.map_cons]
    rw [h x (List.mem_cons_self x l), ih (fun y hy => h y (List.mem_cons_of_mem x hy))]

/-- When no assignment is a non-deterministic call, rewriting the
`QueryInfo` is the identity. -/
theorem rewriteQueryInfo_eq_self (sample : String) (qi : QueryInfo)
    (h : qi.hasNondeterministicCall = false) :
    rewriteQueryInfo sample qi = qi := by
  have hall : ∀ g ∈ qi.assignmentsGroups, ∀ a ∈ g.assignments,
      a.kind.isNondeterministicCall = false := by
    intro g hg a ha
    cases h2 : a.kind.isNondeterministicCall with
    | false => rfl
    | true =>
      exfalso
      have : qi.hasNondeterministicCall = true := by
        unfold QueryInfo.hasNondeterministicCall
        rw [List.any_eq_true]
        exact ⟨g, hg, by rw [List.any_eq_true]; exact ⟨a, ha, h2⟩⟩
      rw [h] at this
      exact Bool.false_ne_true this
  unfold rewriteQueryInfo
  cases qi with
  | mk st ks tbl groups =>
    simp only [QueryInfo.mk.injEq, true_and]
    apply map_eq_self_of
    intro g hg
    cases g with
    | mk assigns =>
      simp only [AssignmentsGroup.mk.injEq]
      apply map_eq_self_of
      intro a ha
      unfold rewriteAssignment
      rw [if_neg]
      simp [hall ⟨assigns⟩ hg a ha]

/-- An assignment whose kind is a non-deterministic call is a function
call. -/
theorem isFunctionCall_of_nondet (a : Assignment)
    (h : a.kind.isNondeterministicCall = true) : a.isFunctionCall = true := by
  cases hk : a.kind with
  | functionCall n args => simp [Assignment.isFunctionCall, hk]
  | literal v => simp [AssignmentKind.isNondeterministicCall, hk] at h
  | bindMarker => simp [AssignmentKind.isNondeterministicCall, hk] at h

/-- Structure of the rewritten `QueryInfo`: group count and per-group
assignment counts are preserved; a non-deterministic assignment becomes a
literal; any other assignment is unchanged. -/
theorem rewriteQueryInfo_structure (sample : String) (qi : QueryInfo) :
    (rewriteQueryInfo sample qi).assignmentsGroups.length = qi.assignmentsGroups.length ∧
    ∀ (gi : Nat) (hg : gi < qi.assignmentsGroups.length)
      (hg2 : gi < (rewriteQueryInfo sample qi).assignmentsGroups.length),
      ((rewriteQueryInfo sample qi).assignmentsGroups[gi]).assignments.length =
        (qi.assignmentsGroups[gi]).assignments.length ∧
      ∀ (i : Nat) (hi : i < (qi.assignmentsGroups[gi]).assignments.length)
        (hi2 : i < ((rewriteQueryInfo sample qi).assignmentsGroups[gi]).assignments.length),
        ((qi.assignmentsGroups[gi]).assignments[i].kind.isNondeterministicCall = true →
          (qi.assignmentsGroups[gi]).assignments[i].isFunctionCall = true ∧
          ((rewriteQueryInfo sample qi).assignmentsGroups[gi]).assignments[i].isLiteral = true ∧
          ((rewriteQueryInfo sample qi).assignmentsGroups[gi]).assignments[i].isFunctionCall
            = false) ∧
        ((qi.assignmentsGroups[gi]).assignments[i].kind.isNondeterministicCall = false →
          ((rewriteQueryInfo sample qi).assignmentsGroups[gi]).assignments[i] =
            (qi.assignmentsGroups[gi]).assignments[i]) := by
  refine ⟨by simp [rewriteQueryInfo], ?_⟩
  intro gi hg hg2
  refine ⟨by simp [rewriteQueryInfo], ?_⟩
  intro i hi hi2
  constructor
  · intro hnd
    refine ⟨isFunctionCall_of_nondet _ hnd, ?_, ?_⟩ <;>
      simp [rewriteQueryInfo, rewriteAssignment, hnd, Assignment.isLiteral,
        Assignment.isFunctionCall]
  · intro hnd
    simp [rewriteQueryInfo, rewriteAssignment, hnd]

/-- Computation of `modifyFrame` on a fresh context wrapping a QUERY
frame. -/
theorem modifyFrame_query_eq (sample : String) (f : RawFrame) (cql : String)
    (hb : f.body = .query cql) :
    modifyFrame sample (mkContext f) =
      (if (parseQuery cql).hasNondeterministicCall then
        .ok ⟨⟨f.version, f.flags, f.streamId, .query (rewriteQuery sample cql)⟩,
             some (rewriteQueryInfo sample (parseQuery cql))⟩
      else .ok ⟨f, some (parseQuery cql)⟩) := by
  unfold modifyFrame
  simp [mkContext, FrameDecodeContext.GetOrInspectQuery, hb]

/-- Computation of `modifyFrame` on a fresh context wrapping a PREPARE
frame. -/
theorem modifyFrame_prepare_eq (sample : String) (f : RawFrame) (cql ks : String)
    (hb : f.body = .prepare cql ks) :
    modifyFrame sample (mkContext f) =
      (if (parseQuery cql).hasNondeterministicCall then
        .ok ⟨⟨f.version, f.flags, f.streamId, .prepare (rewriteQuery sample cql) ks⟩,
             some (rewriteQueryInfo sample (parseQuery cql))⟩
      else .ok ⟨f, some (parseQuery cql)⟩) := by
  unfold modifyFrame
  simp [mkContext, FrameDecodeContext.GetOrInspectQuery, hb]

/-- The result of `modifyFrame` on a fresh context always memoises the
rewritten `QueryInfo` (which is the original one when nothing needed
rewriting). -/
theorem modifyFrame_queryInfo (sample : String) (f : RawFrame) (qi : QueryInfo)
    (newCtx : FrameDecodeContext)
    (hq : (mkContext f).GetOrInspectQuery = .ok qi)
    (hm : modifyFrame sample (mkContext f) = .ok newCtx) :
    newCtx.queryInfo = some (rewriteQueryInfo sample qi) := by
  rcases getOrInspectQuery_ok_body f qi hq with ⟨cql, hb, hqi⟩ | ⟨cql, ks, hb, hqi⟩
  · subst hqi
    rw [modifyFrame_query_eq sample f cql hb] at hm
    by_cases hnd : (parseQuery cql).hasNondeterministicCall = true
    · rw [if_pos hnd] at hm
      simp only [Except.ok.injEq] at hm
      rw [← hm]
    · rw [if_neg hnd] at hm
      simp only [Except.ok.injEq] at hm
      rw [← hm, rewriteQueryInfo_eq_self sample _ (Bool.not_eq_true _ ▸ hnd)]
  · subst hqi
    rw [modifyFrame_prepare_eq sample f cql ks hb] at hm
    by_cases hnd : (parseQuery cql).hasNondeterministicCall = true
    · rw [if_pos hnd] at hm
      simp only [Except.ok.injEq] at hm
      rw [← hm]
    · rw [if_neg hnd] at hm
      simp only [Except.ok.injEq] at hm
      rw [← hm, rewriteQueryInfo_eq_self sample _ (Bool.not_eq_true _ ▸ hnd)]

/-- C5: `modifyFrame` preserves the assignment structure of the
`QueryInfo`: the rewritten info has the same group count and the same
number of assignments at the same indices; every assignment at a
non-replaced position is unchanged; every assignment at a replaced
position (a non-deterministic function call in the original) reports
`isLiteral = true` and `isFunctionCall = false` after the rewrite. -/
theorem modifyFrame_preserves_assignment_structure
    (sample : String) (f : RawFrame) (qi : QueryInfo)
    (hq : (mkContext f).GetOrInspectQuery = .ok qi) :
    ∃ newCtx qi2, modifyFrame sample (mkContext f) = .ok newCtx ∧
      newCtx.queryInfo = some qi2 ∧
      qi2.assignmentsGroups.length = qi.assignmentsGroups.length ∧
      ∀ (gi : Nat) (hg : gi < qi.assignmentsGroups.length)
        (hg2 : gi < qi2.assignmentsGroups.length),
        (qi2.assignmentsGroups[gi]).assignments.length =
          (qi.assignmentsGroups[gi]).assignments.length ∧
        ∀ (i : Nat) (hi : i < (qi.assignmentsGroups[gi]).assignments.length)
          (hi2 : i < (qi2.assignmentsGroups[gi]).assignments.length),
          ((qi.assignmentsGroups[gi]).assignments[i].kind.isNondeterministicCall = true →
            (qi.assignmentsGroups[gi]).assignments[i].isFunctionCall = true ∧
            (qi2.assignmentsGroups[gi]).assignments[i].isLiteral = true ∧
            (qi2.assignmentsGroups[gi]).assignments[i].isFunctionCall = false) ∧
          ((qi.assignmentsGroups[gi]).assignments[i].kind.isNondeterministicCall = false →
            (qi2.assignmentsGroups[gi]).assignments[i] =
              (qi.assignmentsGroups[gi]).assignments[i]) := by
  have hok : ∃ newCtx, modifyFrame sample (mkContext f) = .ok newCtx := by
    rcases getOrInspectQuery_ok_body f qi hq with ⟨cql, hb, _⟩ | ⟨cql, ks, hb, _⟩
    · rw [modifyFrame_query_eq sample f cql hb]
      by_cases hnd : (parseQuery cql).hasNondeterministicCall = true
      · rw [if_pos hnd]; exact ⟨_, rfl⟩
      · rw [if_neg hnd]; exact ⟨_, rfl⟩
    · rw [modifyFrame_prepare_eq sample f cql ks hb]
      by_cases hnd : (parseQuery cql).hasNondeterministicCall = true
      · rw [if_pos hnd]; exact ⟨_, rfl⟩
      · rw [if_neg hnd]; exact ⟨_, rfl⟩
  obtain ⟨newCtx, hm⟩ := hok
  refine ⟨newCtx, rewriteQueryInfo sample qi, hm,
    modifyFrame_queryInfo sample f qi newCtx hq hm, ?_⟩
  exact rewriteQueryInfo_structure sample qi

/-- Witness for C5: rewriting the test INSERT preserves the single group
of two assignments. -/
theorem modifyFrame_preserves_assignment_structure_witness :
    ∃ newCtx qi2,
      modifyFrame "sampleuuid"
        (mkContext (mockQueryFrame "INSERT INTO blah (a, b) VALUES (now(), 1)")) =
        .ok newCtx ∧
      newCtx.queryInfo = some qi2 ∧
      qi2.assignmentsGroups.length =
        (parseQuery "INSERT INTO blah (a, b) VALUES (now(), 1)").assignmentsGroups.length ∧
      ∀ (gi : Nat)
        (hg : gi <
          (parseQuery "INSERT INTO blah (a, b) VALUES (now(), 1)").assignmentsGroups.length)
        (hg2 : gi < qi2.assignmentsGroups.length),
        (qi2.assignmentsGroups[gi]).assignments.length =
          ((parseQuery "INSERT INTO blah (a, b) VALUES (now(), 1)").assignmentsGroups[gi]).assignments.length ∧
        ∀ (i : Nat)
          (hi : i <
            ((parseQuery "INSERT INTO blah (a, b) VALUES (now(), 1)").assignmentsGroups[gi]).assignments.length)
          (hi2 : i < (qi2.assignmentsGroups[gi]).assignments.length),
          (((parseQuery "INSERT INTO blah (a, b) VALUES (now(), 1)").assignmentsGroups[gi]).assignments[i].kind.isNondeterministicCall = true →
            ((parseQuery "INSERT INTO blah (a, b) VALUES (now(), 1)").assignmentsGroups[gi]).assignments[i].isFunctionCall = true ∧
            (qi2.assignmentsGroups[gi]).assignments[i].isLiteral = true ∧
            (qi2.assignmentsGroups[gi]).assignments[i].isFunctionCall = false) ∧
          (((parseQuery "INSERT INTO blah (a, b) VALUES (now(), 1)").assignmentsGroups[gi]).assignments[i].kind.isNondeterministicCall = false →
            (qi2.assignmentsGroups[gi]).assignments[i] =
              ((parseQuery "INSERT INTO blah (a, b) VALUES (now(), 1)").assignmentsGroups[gi]).assignments[i]) :=
  modifyFrame_preserves_assignment_structure "sampleuuid"
    (mockQueryFrame "INSERT INTO blah (a, b) VALUES (now(), 1)")
    (parseQuery "INSERT INTO blah (a, b) VALUES (now(), 1)") rfl

/-- C6: when the inspected query has no non-deterministic function-call
assignment, `modifyFrame` is the identity: the returned decode context
carries the very same frame (header and body) and the input's
`QueryInfo`. -/
theorem modifyFrame_identity_without_nondeterministic_calls
    (sample : String) (f : RawFrame) (qi : QueryInfo)
    (hq : (mkContext f).GetOrInspectQuery = .ok qi)
    (hnd : qi.hasNondeterministicCall = false) :
    modifyFrame sample (mkContext f) = .ok ⟨f, some qi⟩ := by
  rcases getOrInspectQuery_ok_body f qi hq with ⟨cql, hb, hqi⟩ | ⟨cql, ks, hb, hqi⟩
  · subst hqi
    rw [modifyFrame_query_eq sample f cql hb,
      if_neg (by rw [hnd]; exact Bool.false_ne_true)]
  · subst hqi
    rw [modifyFrame_prepare_eq sample f cql ks hb,
      if_neg (by rw [hnd]; exact Bool.false_ne_true)]

/-- Witness for C6: a plain SELECT is returned byte-identical. -/
theorem modifyFrame_identity_witness :
    (parseQuery "SELECT blah FROM ks1.t2").hasNondeterministicCall = false ∧
    modifyFrame "sampleuuid" (mkContext (mockQueryFrame "SELECT blah FROM ks1.t2")) =
      .ok ⟨mockQueryFrame "SELECT blah FROM ks1.t2", some (parseQuery "SELECT blah FROM ks1.t2")⟩ :=
  ⟨by decide,
   modifyFrame_identity_without_nondeterministic_calls "sampleuuid"
     (mockQueryFrame "SELECT blah FROM ks1.t2") (parseQuery "SELECT blah FROM ks1.t2")
     rfl (by decide)⟩

/-- C9: `modifyFrame` preserves the statement type: whether the frame is
rewritten or returned unchanged, the `QueryInfo` of the returned decode
context reports the same statement type as the original inspection. -/
theorem modifyFrame_preserves_statement_type
    (sample : String) (f : RawFrame) (qi : QueryInfo) (newCtx : FrameDecodeContext)
    (hq : (mkContext f).GetOrInspectQuery = .ok qi)
    (hm : modifyFrame sample (mkContext f) = .ok newCtx) :
    ∃ qi2, newCtx.queryInfo = some qi2 ∧ qi2.statementType = qi.statementType :=
  ⟨rewriteQueryInfo sample qi, modifyFrame_queryInfo sample f qi newCtx hq hm, rfl⟩

/-- Witness for C9: the rewritten INSERT still reports statement type
INSERT. -/
theorem modifyFrame_preserves_statement_type_witness :
    ∃ qi2,
      (⟨⟨4, 0, 1, .query "INSERT INTO blah ( a , b ) VALUES ( sampleuuid , 1 )"⟩,
        some (rewriteQueryInfo "sampleuuid"
          (parseQuery "INSERT INTO blah (a, b) VALUES (now(), 1)"))⟩ :
          FrameDecodeContext).queryInfo = some qi2 ∧
      qi2.statementType =
        (parseQuery "INSERT INTO blah (a, b) VALUES (now(), 1)").statementType :=
  modifyFrame_preserves_statement_type "sampleuuid"
    (mockQueryFrame "INSERT INTO blah (a, b) VALUES (now(), 1)")
    (parseQuery "INSERT INTO blah (a, b) VALUES (now(), 1)") _ rfl rfl

/-! ### Tokenizer round trip

Rendering a list of well-formed tokens with single-space separators and
tokenizing the result recovers exactly the token list.  Together with a
counting argument this shows that the rewritten INSERT body differs from
the original body whenever a replacement happened. -/

/-- An ordinary character is not whitespace. -/
theorem ord_not_space {c : Char} (h : isOrdChar c = true) : isSpaceChar c = false := by
  unfold isOrdChar at h
  cases h2 : isSpaceChar c
  · rfl
  · rw [h2] at h
    simp at h

/-- An ordinary character is not punctuation. -/
theorem ord_not_punct {c : Char} (h : isOrdChar c = true) : isPunctChar c = false := by
  unfold isOrdChar at h
  cases h2 : isPunctChar c
  · rfl
  · rw [h2] at h
    simp at h

/-- A character that is neither whitespace nor punctuation is ordinary. -/
theorem ord_of_not_space_punct {c : Char} (h1 : isSpaceChar c = false)
    (h2 : isPunctChar c = false) : isOrdChar c = true := by
  simp [isOrdChar, h1, h2]

/-- A nonempty all-ordinary character list is a well-formed token. -/
theorem goodTok_of_ord (t : List Char) (hne : t ≠ [])
    (h : ∀ c ∈ t, isOrdChar c = true) : goodTok t = true := by
  match t with
  | [] => exact absurd rfl hne
  | [c] => simp [goodTok, h c (by simp)]
  | c :: c2 :: cs =>
    simp only [goodTok, Bool.and_eq_true, List.all_eq_true]
    exact ⟨h c (by simp), fun x hx => h x (by simp [hx])⟩

/-- Case analysis on a well-formed token. -/
theorem goodTok_cases (t : List Char) (h : goodTok t = true) :
    (t ≠ [] ∧ ∀ c ∈ t, isOrdChar c = true) ∨ (∃ c, isPunctChar c = true ∧ t = [c]) := by
  match t with
  | [] => simp [goodTok] at h
  | [c] =>
    simp only [goodTok, Bool.or_eq_true] at h
    rcases h with h1 | h1
    · refine Or.inl ⟨by simp, ?_⟩
      intro x hx
      rw [List.mem_singleton] at hx
      subst hx
      exact h1
    · exact Or.inr ⟨c, h1, rfl⟩
  | c :: c2 :: cs =>
    refine Or.inl ⟨by simp, ?_⟩
    simp only [goodTok, Bool.and_eq_true, List.all_eq_true] at h
    intro x hx
    rcases List.mem_cons.mp hx with rfl | hx2
    · exact h.1
    · exact h.2 x hx2

/-- The reversed accumulator of the tokenizer is a well-formed token. -/
theorem goodTok_reverse_acc (acc : List Char)
    (hacc : ∀ c ∈ acc, isOrdChar c = true) (hae : ¬acc.isEmpty = true) :
    goodTok acc.reverse = true := by
  apply goodTok_of_ord
  · simp only [ne_eq, List.reverse_eq_nil_iff]
    intro hh
    rw [hh] at hae
    simp at hae
  · intro c hc
    exact hacc c (List.mem_reverse.mp hc)

/-- Every token produced by the tokenizer is well-formed. -/
theorem tokenizeAux_good (cs : List Char) :
    ∀ (acc : List Char), (∀ c ∈ acc, isOrdChar c = true) →
      ∀ t ∈ tokenizeAux cs acc, goodTok t = true := by
  induction cs with
  | nil =>
    intro acc hacc t ht
    unfold tokenizeAux at ht
    by_cases hae : acc.isEmpty = true
    · rw [if_pos hae] at ht
      simp at ht
    · rw [if_neg hae] at ht
      rw [List.mem_singleton] at ht
      subst ht
      exact goodTok_reverse_acc acc hacc hae
  | cons c cs ih =>
    intro acc hacc t ht
    unfold tokenizeAux at ht
    by_cases hsp : isSpaceChar c = true
    · rw [if_pos hsp] at ht
      by_cases hae : acc.isEmpty = true
      · rw [if_pos hae] at ht
        exact ih [] (by simp) t ht
      · rw [if_neg hae] at ht
        rcases List.mem_cons.mp ht with rfl | ht2
        · exact goodTok_reverse_acc acc hacc hae
        · exact ih [] (by simp) t ht2
    · rw [if_neg hsp] at ht
      by_cases hpc : isPunctChar c = true
      · rw [if_pos hpc] at ht
        by_cases hae : acc.isEmpty = true
        · rw [if_pos hae] at ht
          rcases List.mem_cons.mp ht with rfl | ht2
          · simp [goodTok, hpc]
          · exact ih [] (by simp) t ht2
        · rw [if_neg hae] at ht
          rcases List.mem_cons.mp ht with rfl | ht2
          · exact goodTok_reverse_acc acc hacc hae
          · rcases List.mem_cons.mp ht2 with rfl | ht3
            · simp [goodTok, hpc]
            · exact ih [] (by simp) t ht3
      · rw [if_neg hpc] at ht
        refine ih (c :: acc) ?_ t ht
        intro x hx
        rcases List.mem_cons.mp hx with rfl | hx2
        · exact ord_of_not_space_punct (Bool.not_eq_true _ ▸ hsp) (Bool.not_eq_true _ ▸ hpc)
        · exact hacc x hx2

/-- Unfolding step of the tokenizer on a cons cell. -/
theorem tokenizeAux_cons (c : Char) (cs acc : List Char) :
    tokenizeAux (c :: cs) acc =
      if isSpaceChar c then
        (if acc.isEmpty then tokenizeAux cs [] else acc.reverse :: tokenizeAux cs [])
      else if isPunctChar c then
        (if acc.isEmpty then [c] :: tokenizeAux cs []
         else acc.reverse :: [c] :: tokenizeAux cs [])
      else tokenizeAux cs (c :: acc) := rfl

/-- Consuming an all-ordinary token moves it into the accumulator. -/
theorem tokenizeAux_ord_append (t : List Char) (h : ∀ c ∈ t, isOrdChar c = true) :
    ∀ (rest acc : List Char),
      tokenizeAux (t ++ rest) acc = tokenizeAux rest (t.reverse ++ acc) := by
  induction t with
  | nil => intro rest acc; simp
  | cons c t ih =>
    intro rest acc
    have hc := h c (List.mem_cons_self c t)
    have hacc : (c :: t).reverse ++ acc = t.reverse ++ (c :: acc) := by simp
    rw [hacc]
    show tokenizeAux (c :: (t ++ rest)) acc = _
    rw [tokenizeAux_cons, if_neg (by rw [ord_not_space hc]; simp),
      if_neg (by rw [ord_not_punct hc]; simp),
      ih (fun x hx => h x (List.mem_cons_of_mem c hx)) rest (c :: acc)]

/-- Tokenizing the rendering of a list of well-formed tokens recovers the
list. -/
theorem tokenize_renderTokens (ts : List (List Char))
    (h : ∀ t ∈ ts, goodTok t = true) : tokenize (renderTokens ts) = ts := by
  induction ts with
  | nil => rfl
  | cons t ts ih =>
    cases ts with
    | nil =>
      rcases goodTok_cases t (h t (by simp)) with ⟨hne, hord⟩ | ⟨c, hp, rfl⟩
      · show tokenize (renderTokens [t]) = [t]
        unfold tokenize renderTokens
        have h2 := tokenizeAux_ord_append t hord [] []
        rw [List.append_nil] at h2
        rw [h2]
        unfold tokenizeAux
        rw [if_neg (by simp [hne])]
        simp
      · show tokenize (renderTokens [[c]]) = [[c]]
        unfold tokenize renderTokens
        unfold tokenizeAux
        rw [if_neg (by rw [show isSpaceChar c = false from by
              rcases (by simpa [isPunctChar] using hp : (c = '(' ∨ c = ')') ∨ c = ',') with
                (rfl | rfl) | rfl <;> rfl]; simp),
          if_pos hp, if_pos (by rfl)]
        rfl
    | cons t2 ts2 =>
      have hrest : ∀ x ∈ t2 :: ts2, goodTok x = true := fun x hx => h x (by simp [hx])
      rcases goodTok_cases t (h t (by simp)) with ⟨hne, hord⟩ | ⟨c, hp, rfl⟩
      · show tokenize (t ++ ' ' :: renderTokens (t2 :: ts2)) = t :: t2 :: ts2
        unfold tokenize
        rw [tokenizeAux_ord_append t hord]
        unfold tokenizeAux
        rw [if_pos (by rfl), if_neg (by simp [hne])]
        have h3 := ih hrest
        unfold tokenize at h3
        rw [h3]
        simp
      · show tokenize (c :: ' ' :: renderTokens (t2 :: ts2)) = [c] :: t2 :: ts2
        unfold tokenize
        unfold tokenizeAux
        rw [if_neg (by rw [show isSpaceChar c = false from by
              rcases (by simpa [isPunctChar] using hp : (c = '(' ∨ c = ')') ∨ c = ',') with
                (rfl | rfl) | rfl <;> rfl]; simp),
          if_pos hp, if_pos (by rfl)]
        unfold tokenizeAux
        rw [if_pos (by rfl), if_pos (by rfl)]
        have h3 := ih hrest
        unfold tokenize at h3
        rw [h3]

/-! ### Reconstruction of the INSERT decomposition -/

/-- Unfolding step of `takeBal` on a cons cell. -/
theorem takeBal_cons (t : List Char) (ts : List (List Char)) (d : Nat) :
    takeBal (t :: ts) d =
      if t = [')'] then
        (if d = 0 then ([], some ts)
         else ((t :: (takeBal ts (d - 1)).1), (takeBal ts (d - 1)).2))
      else if t = ['('] then ((t :: (takeBal ts (d + 1)).1), (takeBal ts (d + 1)).2)
      else ((t :: (takeBal ts d).1), (takeBal ts d).2) := rfl

/-- When `takeBal` finds the closing parenthesis, the input is the inside
followed by the closing parenthesis and the suffix. -/
theorem takeBal_recon : ∀ (ts : List (List Char)) (d : Nat) (suf : List (List Char)),
    (takeBal ts d).2 = some suf → ts = (takeBal ts d).1 ++ [')'] :: suf := by
  intro ts
  induction ts with
  | nil =>
    intro d suf h
    simp [takeBal] at h
  | cons t ts ih =>
    intro d suf h
    rw [takeBal_cons] at h ⊢
    by_cases h1 : t = [')']
    · rw [if_pos h1] at h ⊢
      by_cases h2 : d = 0
      · rw [if_pos h2] at h ⊢
        simp only [Option.some.injEq] at h
        subst h1
        subst h
        simp
      · rw [if_neg h2] at h ⊢
        dsimp only at h ⊢
        simp [← ih (d - 1) suf h]
    · rw [if_neg h1] at h ⊢
      by_cases h3 : t = ['(']
      · rw [if_pos h3] at h ⊢
        dsimp only at h ⊢
        simp [← ih (d + 1) suf h]
      · rw [if_neg h3] at h ⊢
        dsimp only at h ⊢
        simp [← ih d suf h]

/-- Unfolding step of `splitTopAux` on a cons cell. -/
theorem splitTopAux_cons (t : List Char) (ts : List (List Char)) (d : Nat)
    (acc : List (List Char)) :
    splitTopAux (t :: ts) d acc =
      if t = [','] && d = 0 then acc.reverse :: splitTopAux ts 0 []
      else if t = ['('] then splitTopAux ts (d + 1) (t :: acc)
      else if t = [')'] then splitTopAux ts (d - 1) (t :: acc)
      else splitTopAux ts d (t :: acc) := rfl

/-- The splitter never returns an empty group list. -/
theorem splitTopAux_ne_nil : ∀ (ts : List (List Char)) (d : Nat) (acc : List (List Char)),
    splitTopAux ts d acc ≠ [] := by
  intro ts
  induction ts with
  | nil => intro d acc; simp [splitTopAux]
  | cons t ts ih =>
    intro d acc
    rw [splitTopAux_cons]
    by_cases h1 : (t = [','] && d = 0) = true
    · rw [if_pos h1]; simp
    · rw [if_neg h1]
      by_cases h2 : t = ['(']
      · rw [if_pos h2]; exact ih (d + 1) (t :: acc)
      · rw [if_neg h2]
        by_cases h3 : t = [')']
        · rw [if_pos h3]; exact ih (d - 1) (t :: acc)
        · rw [if_neg h3]; exact ih d (t :: acc)

/-- Rejoining the split groups recovers the accumulator and the input. -/
theorem joinComma_splitTopAux :
    ∀ (ts : List (List Char)) (d : Nat) (acc : List (List Char)),
      joinComma (splitTopAux ts d acc) = acc.reverse ++ ts := by
  intro ts
  induction ts with
  | nil =>
    intro d acc
    simp [splitTopAux, joinComma]
  | cons t ts ih =>
    intro d acc
    rw [splitTopAux_cons]
    by_cases h1 : (t = [','] && d = 0) = true
    · rw [if_pos h1]
      obtain ⟨r, rs, hr⟩ : ∃ r rs, splitTopAux ts 0 [] = r :: rs := by
        cases hs : splitTopAux ts 0 [] with
        | nil => exact absurd hs (splitTopAux_ne_nil ts 0 [])
        | cons r rs => exact ⟨r, rs, rfl⟩
      rw [hr]
      show acc.reverse ++ [','] :: joinComma (r :: rs) = acc.reverse ++ t :: ts
      have h2 := ih 0 []
      rw [hr] at h2
      simp only [List.reverse_nil, List.nil_append] at h2
      rw [h2]
      obtain ⟨ht, -⟩ : t = [','] ∧ d = 0 := by simpa using h1
      rw [ht]
    · rw [if_neg h1]
      by_cases h2 : t = ['(']
      · rw [if_pos h2, ih (d + 1) (t :: acc)]
        simp
      · rw [if_neg h2]
        by_cases h3 : t = [')']
        · rw [if_pos h3, ih (d - 1) (t :: acc)]
          simp
        · rw [if_neg h3, ih d (t :: acc)]
          simp

/-- Rejoining the top-level comma split is the identity. -/
theorem joinComma_splitTop (ts : List (List Char)) : joinComma (splitTop ts) = ts := by
  have h := joinComma_splitTopAux ts 0 []
  simpa [splitTop] using h

/-- Unfolding step of `splitAtValues` on a cons cell. -/
theorem splitAtValues_cons (t : List Char) (ts : List (List Char)) :
    splitAtValues (t :: ts) =
      if lowerTok t = "values".toList && ts.head? = some ['('] then
        some ([], t, ts.tail)
      else
        match splitAtValues ts with
        | some (p, v, a) => some (t :: p, v, a)
        | none => none := rfl

/-- When `splitAtValues` succeeds, the input is the prefix, the VALUES
token, an opening parenthesis, and the rest. -/
theorem splitAtValues_recon :
    ∀ (ts p : List (List Char)) (v : List Char) (a : List (List Char)),
      splitAtValues ts = some (p, v, a) → ts = p ++ v :: ['('] :: a := by
  intro ts
  induction ts with
  | nil =>
    intro p v a h
    simp [splitAtValues] at h
  | cons t ts ih =>
    intro p v a h
    rw [splitAtValues_cons] at h
    by_cases hc : (lowerTok t = "values".toList && ts.head? = some ['(']) = true
    · rw [if_pos hc] at h
      simp only [Option.some.injEq, Prod.mk.injEq] at h
      obtain ⟨hp, hv, ha⟩ := h
      obtain ⟨-, hhead⟩ : lowerTok t = "values".toList ∧ ts.head? = some ['('] := by
        simpa using hc
      cases ts with
      | nil => simp at hhead
      | cons x ts2 =>
        simp only [List.head?_cons, Option.some.injEq] at hhead
        subst hhead
        simp only [List.tail_cons] at ha
        rw [← hp, ← hv, ← ha]
        simp
    · rw [if_neg hc] at h
      cases hsv : splitAtValues ts with
      | none => rw [hsv] at h; simp at h
      | some r =>
        obtain ⟨p2, v2, a2⟩ := r
        rw [hsv] at h
        simp only [Option.some.injEq, Prod.mk.injEq] at h
        obtain ⟨hp, hv, ha⟩ := h
        rw [← hp, ← hv, ← ha]
        have := ih p2 v2 a2 hsv
        simp [this]

/-- Computation of `insertParts` when no VALUES keyword was located. -/
theorem insertParts_eq_none (rest : List (List Char))
    (h : splitAtValues rest = none) : insertParts rest = none := by
  unfold insertParts
  rw [h]

/-- Computation of `insertParts` when the VALUES keyword was located. -/
theorem insertParts_eq_some (rest p : List (List Char)) (v : List Char)
    (a : List (List Char)) (h : splitAtValues rest = some (p, v, a)) :
    insertParts rest =
      (match takeBal a 0 with
       | (vals, some suffix) => some (p, v, splitTop vals, suffix)
       | (_, none) => none) := by
  unfold insertParts
  rw [h]

/-- When `insertParts` succeeds, the tokens after the INSERT keyword are
the prefix, the VALUES keyword, an opening parenthesis, the joined value
groups, a closing parenthesis and the suffix. -/
theorem insertParts_recon (rest : List (List Char)) (p : List (List Char))
    (v : List Char) (groups : List (List (List Char))) (suffix : List (List Char))
    (h : insertParts rest = some (p, v, groups, suffix)) :
    rest = p ++ v :: ['('] :: (joinComma groups ++ [')'] :: suffix) := by
  cases hsv : splitAtValues rest with
  | none =>
    rw [insertParts_eq_none rest hsv] at h
    exact absurd h (by simp)
  | some r =>
    obtain ⟨p2, v2, a⟩ := r
    rw [insertParts_eq_some rest p2 v2 a hsv] at h
    cases htb : takeBal a 0 with
    | mk vals ob =>
      rw [htb] at h
      cases ob with
      | none => simp at h
      | some suf =>
        simp only [Option.some.injEq, Prod.mk.injEq] at h
        obtain ⟨hp, hv, hg, hs⟩ := h
        have ha : a = vals ++ [')'] :: suf := by
          have h2 := takeBal_recon a 0 suf (by rw [htb])
          rw [htb] at h2
          exact h2
        have hjoin : joinComma groups = vals := by
          rw [← hg]
          exact joinComma_splitTop vals
        rw [← hp, ← hv, ← hs, splitAtValues_recon rest p2 v2 a hsv, ha, hjoin]

/-! ### Counting the rewritten tokens -/

/-- Members of the rejoined groups are commas or members of some group. -/
theorem mem_joinComma : ∀ (gs : List (List (List Char))) (t : List Char),
    t ∈ joinComma gs → t = [','] ∨ ∃ g ∈ gs, t ∈ g := by
  intro gs
  induction gs with
  | nil =>
    intro t ht
    simp [joinComma] at ht
  | cons g gs ih =>
    cases gs with
    | nil =>
      intro t ht
      exact Or.inr ⟨g, by simp, by simpa [joinComma] using ht⟩
    | cons g2 gs2 =>
      intro t ht
      have ht2 : t ∈ g ++ [','] :: joinComma (g2 :: gs2) := ht
      rcases List.mem_append.mp ht2 with h1 | h1
      · exact Or.inr ⟨g, by simp, h1⟩
      · rcases List.mem_cons.mp h1 with rfl | h2
        · exact Or.inl rfl
        · rcases ih t h2 with h3 | ⟨g3, hg3, ht3⟩
          · exact Or.inl h3
          · exact Or.inr ⟨g3, List.mem_cons_of_mem g hg3, ht3⟩

/-- Every member of every group appears in the rejoined list. -/
theorem mem_joinComma_of_mem : ∀ (gs : List (List (List Char))) (g : List (List Char))
    (t : List Char), g ∈ gs → t ∈ g → t ∈ joinComma gs := by
  intro gs
  induction gs with
  | nil =>
    intro g t hg
    simp at hg
  | cons a gs ih =>
    intro g t hg ht
    cases gs with
    | nil =>
      rcases List.mem_cons.mp hg with rfl | h2
      · simpa [joinComma] using ht
      · simp at h2
    | cons b gs2 =>
      show t ∈ a ++ [','] :: joinComma (b :: gs2)
      rcases List.mem_cons.mp hg with rfl | h2
      · exact List.mem_append.mpr (Or.inl ht)
      · exact List.mem_append.mpr (Or.inr (List.mem_cons_of_mem _ (ih g t h2 ht)))

/-- A value group classified as a function call has at least two tokens
(the name and the opening parenthesis). -/
theorem classifyValue_functionCall_shape (g : List (List Char)) (n : String)
    (args : List String) (h : classifyValue g = .functionCall n args) :
    2 ≤ g.length := by
  match g with
  | [] => simp [classifyValue] at h
  | [t] =>
    have h2 : classifyValue [t] =
        (if t = ['?'] || t.head? = some ':' then .bindMarker
         else .literal (String.mk t)) := rfl
    rw [h2] at h
    split at h <;> simp at h
  | t1 :: t2 :: rest =>
    simp only [List.length_cons]
    omega

/-- Replacing a group never lengthens it. -/
theorem rewriteGroup_length_le (sample : List Char) (g : List (List Char)) :
    (rewriteGroup sample g).length ≤ g.length := by
  unfold rewriteGroup
  by_cases h : (classifyValue g).isNondeterministicCall = true
  · rw [if_pos h]
    cases hc : classifyValue g with
    | functionCall n args =>
      have h2 := classifyValue_functionCall_shape g n args hc
      simp only [List.length_cons, List.length_nil]
      omega
    | literal v =>
      rw [hc] at h
      simp [AssignmentKind.isNondeterministicCall] at h
    | bindMarker =>
      rw [hc] at h
      simp [AssignmentKind.isNondeterministicCall] at h
  · rw [if_neg h]

/-- Replacing a non-deterministic function-call group strictly shortens
it. -/
theorem rewriteGroup_length_lt (sample : List Char) (g : List (List Char))
    (h : (classifyValue g).isNondeterministicCall = true) :
    (rewriteGroup sample g).length < g.length := by
  unfold rewriteGroup
  rw [if_pos h]
  cases hc : classifyValue g with
  | functionCall n args =>
    have h2 := classifyValue_functionCall_shape g n args hc
    simp only [List.length_cons, List.length_nil]
    omega
  | literal v =>
    rw [hc] at h
    simp [AssignmentKind.isNondeterministicCall] at h
  | bindMarker =>
    rw [hc] at h
    simp [AssignmentKind.isNondeterministicCall] at h

/-- Rewriting the groups never lengthens the rejoined list. -/
theorem joinComma_map_rewrite_le (sample : List Char) :
    ∀ (gs : List (List (List Char))),
      (joinComma (gs.map (rewriteGroup sample))).length ≤ (joinComma gs).length := by
  intro gs
  induction gs with
  | nil => simp [joinComma]
  | cons g gs ih =>
    cases gs with
    | nil => simpa [joinComma] using rewriteGroup_length_le sample g
    | cons b gs2 =>
      show (rewriteGroup sample g ++
          [','] :: joinComma ((b :: gs2).map (rewriteGroup sample))).length ≤
        (g ++ [','] :: joinComma (b :: gs2)).length
      simp only [List.length_append, List.length_cons]
      have h1 := rewriteGroup_length_le sample g
      omega

/-- Rewriting a group list containing a non-deterministic function call
strictly shortens the rejoined list. -/
theorem joinComma_map_rewrite_lt (sample : List Char) :
    ∀ (gs : List (List (List Char))) (g0 : List (List Char)), g0 ∈ gs →
      (classifyValue g0).isNondeterministicCall = true →
      (joinComma (gs.map (rewriteGroup sample))).length < (joinComma gs).length := by
  intro gs
  induction gs with
  | nil =>
    intro g0 h
    simp at h
  | cons g gs ih =>
    intro g0 hmem hnd
    cases gs with
    | nil =>
      rcases List.mem_cons.mp hmem with rfl | h2
      · simpa [joinComma] using rewriteGroup_length_lt sample g0 hnd
      · simp at h2
    | cons b gs2 =>
      show (rewriteGroup sample g ++
          [','] :: joinComma ((b :: gs2).map (rewriteGroup sample))).length <
        (g ++ [','] :: joinComma (b :: gs2)).length
      simp only [List.length_append, List.length_cons]
      rcases List.mem_cons.mp hmem with rfl | h2
      · have h1 := rewriteGroup_length_lt sample g0 hnd
        have h3 := joinComma_map_rewrite_le sample (b :: gs2)
        omega
      · have h1 := rewriteGroup_length_le sample g
        have h3 := ih g0 h2 hnd
        omega

/-- Members of a zipped list come from members of the two inputs. -/
theorem exists_of_mem_zipWith {α β γ : Type} (f : α → β → γ) :
    ∀ (as : List α) (bs : List β) (c : γ), c ∈ List.zipWith f as bs →
      ∃ a b, a ∈ as ∧ b ∈ bs ∧ c = f a b := by
  intro as
  induction as with
  | nil =>
    intro bs c hc
    simp at hc
  | cons a as ih =>
    intro bs c hc
    cases bs with
    | nil => simp at hc
    | cons b bs =>
      rw [List.zipWith_cons_cons] at hc
      rcases List.mem_cons.mp hc with rfl | h2
      · exact ⟨a, b, by simp, by simp, rfl⟩
      · obtain ⟨a2, b2, ha2, hb2, hc2⟩ := ih bs c h2
        exact ⟨a2, b2, List.mem_cons_of_mem _ ha2, List.mem_cons_of_mem _ hb2, hc2⟩

/-- A parse with a non-deterministic call must come from an INSERT whose
VALUES tuple was located, with some group classified as a
non-deterministic function call. -/
theorem hasNondet_shape (ts : List (List Char))
    (h : (parseTokens ts).hasNondeterministicCall = true) :
    ∃ kw rest p v groups suffix, ts = kw :: rest ∧ keywordType kw = .insert ∧
      insertParts rest = some (p, v, groups, suffix) ∧
      ∃ g ∈ groups, (classifyValue g).isNondeterministicCall = true := by
  cases ts with
  | nil => simp [parseTokens, QueryInfo.hasNondeterministicCall] at h
  | cons kw rest =>
    cases hkw : keywordType kw with
    | insert =>
      cases hip : insertParts rest with
      | none => simp [parseTokens, hkw, hip, QueryInfo.hasNondeterministicCall] at h
      | some r =>
        obtain ⟨p, v, groups, suffix⟩ := r
        simp only [parseTokens, hkw, hip, QueryInfo.hasNondeterministicCall,
          List.any_cons, List.any_nil, Bool.or_false, List.any_eq_true] at h
        obtain ⟨x, hx, hnd⟩ := h
        obtain ⟨c, g, _, hg, hxe⟩ := exists_of_mem_zipWith _ _ _ x hx
        subst hxe
        exact ⟨kw, rest, p, v, groups, suffix, rfl, hkw, hip, g, hg, hnd⟩
    | select => simp [parseTokens, hkw, QueryInfo.hasNondeterministicCall] at h
    | update => simp [parseTokens, hkw, QueryInfo.hasNondeterministicCall] at h
    | delete => simp [parseTokens, hkw, QueryInfo.hasNondeterministicCall] at h
    | batch => simp [parseTokens, hkw, QueryInfo.hasNondeterministicCall] at h
    | use => simp [parseTokens, hkw, QueryInfo.hasNondeterministicCall] at h
    | other => simp [parseTokens, hkw, QueryInfo.hasNondeterministicCall] at h

/-- Unfolding step of `rewriteTokens` on a cons cell. -/
theorem rewriteTokens_cons (sample kw : List Char) (rest : List (List Char)) :
    rewriteTokens sample (kw :: rest) =
      if keywordType kw = .insert then
        match insertParts rest with
        | none => kw :: rest
        | some (p, v, groups, suffix) =>
          kw :: (p ++ v :: ['('] ::
            (joinComma (groups.map (rewriteGroup sample)) ++ [')'] :: suffix))
      else kw :: rest := rfl

/-- Rewriting a token list whose parse contains a non-deterministic call
strictly reduces the token count, since a function call of at least two
tokens becomes the single literal sample. -/
theorem rewriteTokens_length_lt (sample : List Char) (ts : List (List Char))
    (h : (parseTokens ts).hasNondeterministicCall = true) :
    (rewriteTokens sample ts).length < ts.length := by
  obtain ⟨kw, rest, p, v, groups, suffix, rfl, hkw, hip, g, hg, hnd⟩ := hasNondet_shape ts h
  rw [rewriteTokens_cons, if_pos hkw, hip]
  show (kw :: (p ++ v :: ['('] ::
      (joinComma (groups.map (rewriteGroup sample)) ++ [')'] :: suffix))).length <
    (kw :: rest).length
  rw [insertParts_recon rest p v groups suffix hip]
  simp only [List.length_cons, List.length_append]
  have h1 := joinComma_map_rewrite_lt sample groups g hg hnd
  omega

/-- All tokens of the rewritten list are well-formed, provided the sample
is. -/
theorem rewriteTokens_good (sample : List Char) (ts : List (List Char))
    (hs : goodTok sample = true) (hts : ∀ t ∈ ts, goodTok t = true) :
    ∀ t ∈ rewriteTokens sample ts, goodTok t = true := by
  cases ts with
  | nil =>
    intro t ht
    simp [rewriteTokens] at ht
  | cons kw rest =>
    intro t ht
    rw [rewriteTokens_cons] at ht
    by_cases hkw : keywordType kw = .insert
    · rw [if_pos hkw] at ht
      cases hip : insertParts rest with
      | none =>
        rw [hip] at ht
        exact hts t ht
      | some r =>
        obtain ⟨p, v, groups, suffix⟩ := r
        rw [hip] at ht
        have ht2 : t ∈ kw :: (p ++ v :: ['('] ::
            (joinComma (groups.map (rewriteGroup sample)) ++ [')'] :: suffix)) := ht
        have hrest := insertParts_recon rest p v groups suffix hip
        rcases List.mem_cons.mp ht2 with rfl | ht3
        · exact hts t (by simp)
        · rcases List.mem_append.mp ht3 with hp | hv2
          · refine hts t (List.mem_cons_of_mem kw ?_)
            rw [hrest]
            exact List.mem_append.mpr (Or.inl hp)
          · rcases List.mem_cons.mp hv2 with rfl | ht4
            · refine hts t (List.mem_cons_of_mem kw ?_)
              rw [hrest]
              exact List.mem_append.mpr (Or.inr (by simp))
            · rcases List.mem_cons.mp ht4 with rfl | ht5
              · decide
              · rcases List.mem_append.mp ht5 with hj | hsuf
                · rcases mem_joinComma _ t hj with rfl | ⟨g2, hg2, htg⟩
                  · decide
                  · obtain ⟨g3, hg3, hge⟩ := List.mem_map.mp hg2
                    rw [← hge] at htg
                    unfold rewriteGroup at htg
                    by_cases hnd3 : (classifyValue g3).isNondeterministicCall = true
                    · rw [if_pos hnd3] at htg
                      rw [List.mem_singleton] at htg
                      subst htg
                      exact hs
                    · rw [if_neg hnd3] at htg
                      refine hts t (List.mem_cons_of_mem kw ?_)
                      rw [hrest]
                      refine List.mem_append.mpr (Or.inr ?_)
                      refine List.mem_cons_of_mem v ?_
                      refine List.mem_cons_of_mem _ ?_
                      exact List.mem_append.mpr
                        (Or.inl (mem_joinComma_of_mem groups g3 t hg3 htg))
                · rcases List.mem_cons.mp hsuf with rfl | ht6
                  · decide
                  · refine hts t (List.mem_cons_of_mem kw ?_)
                    rw [hrest]
                    refine List.mem_append.mpr (Or.inr ?_)
                    refine List.mem_cons_of_mem v ?_
                    refine List.mem_cons_of_mem _ ?_
                    exact List.mem_append.mpr (Or.inr (List.mem_cons_of_mem _ ht6))
    · rw [if_neg hkw] at ht
      exact hts t ht

/-- Key body-change property: rewriting a CQL string whose parse contains
a non-deterministic function call produces a different string, for any
well-formed literal sample. -/
theorem rewriteQuery_changes (sample cql : String)
    (hgood : goodTok sample.toList = true)
    (h : (parseQuery cql).hasNondeterministicCall = true) :
    rewriteQuery sample cql ≠ cql := by
  intro heq
  have hdata : renderTokens (rewriteTokens sample.toList (tokenize cql.toList)) =
      cql.toList := by
    have h2 := congrArg String.toList heq
    simpa [rewriteQuery] using h2
  have hts : ∀ t ∈ tokenize cql.toList, goodTok t = true :=
    tokenizeAux_good cql.toList [] (by simp)
  have hgood2 := rewriteTokens_good sample.toList (tokenize cql.toList) hgood hts
  have hrt := tokenize_renderTokens _ hgood2
  rw [hdata] at hrt
  have hlt := rewriteTokens_length_lt sample.toList (tokenize cql.toList) h
  rw [← hrt] at hlt
  exact lt_irrefl _ hlt

/-- C4: for every frame that `modifyFrame` rewrites (one whose inspected
query has at least one non-deterministic function-call assignment, with a
well-formed literal sample), the produced frame keeps the protocol
version, flags, stream id and opcode of the input frame, and only the
body differs. -/
theorem modifyFrame_rewrite_preserves_header
    (sample : String) (f : RawFrame) (qi : QueryInfo)
    (hgood : goodTok sample.toList = true)
    (hq : (mkContext f).GetOrInspectQuery = .ok qi)
    (hnd : qi.hasNondeterministicCall = true) :
    ∃ newCtx, modifyFrame sample (mkContext f) = .ok newCtx ∧
      newCtx.frame.version = f.version ∧
      newCtx.frame.flags = f.flags ∧
      newCtx.frame.streamId = f.streamId ∧
      newCtx.frame.opcode = f.opcode ∧
      newCtx.frame.body ≠ f.body := by
  rcases getOrInspectQuery_ok_body f qi hq with ⟨cql, hb, hqi⟩ | ⟨cql, ks, hb, hqi⟩
  · subst hqi
    rw [modifyFrame_query_eq sample f cql hb, if_pos hnd]
    refine ⟨_, rfl, rfl, rfl, rfl, ?_, ?_⟩
    · simp [RawFrame.opcode, FrameBody.opcodeOf, hb]
    · show FrameBody.query (rewriteQuery sample cql) ≠ f.body
      rw [hb]
      intro hcontra
      simp only [FrameBody.query.injEq] at hcontra
      exact rewriteQuery_changes sample cql hgood hnd hcontra
  · subst hqi
    rw [modifyFrame_prepare_eq sample f cql ks hb, if_pos hnd]
    refine ⟨_, rfl, rfl, rfl, rfl, ?_, ?_⟩
    · simp [RawFrame.opcode, FrameBody.opcodeOf, hb]
    · show FrameBody.prepare (rewriteQuery sample cql) ks ≠ f.body
      rw [hb]
      intro hcontra
      simp only [FrameBody.prepare.injEq] at hcontra
      exact rewriteQuery_changes sample cql hgood hnd hcontra.1

/-- Witness for C4: rewriting the test INSERT keeps the header fields and
changes the body. -/
theorem modifyFrame_rewrite_preserves_header_witness :
    goodTok "sampleuuid".toList = true ∧
    (parseQuery "INSERT INTO blah (a, b) VALUES (now(), 1)").hasNondeterministicCall = true ∧
    ∃ newCtx, modifyFrame "sampleuuid"
        (mkContext (mockQueryFrame "INSERT INTO blah (a, b) VALUES (now(), 1)")) =
        .ok newCtx ∧
      newCtx.frame.version =
        (mockQueryFrame "INSERT INTO blah (a, b) VALUES (now(), 1)").version ∧
      newCtx.frame.flags =
        (mockQueryFrame "INSERT INTO blah (a, b) VALUES (now(), 1)").flags ∧
      newCtx.frame.streamId =
        (mockQueryFrame "INSERT INTO blah (a, b) VALUES (now(), 1)").streamId ∧
      newCtx.frame.opcode =
        (mockQueryFrame "INSERT INTO blah (a, b) VALUES (now(), 1)").opcode ∧
      newCtx.frame.body ≠
        (mockQueryFrame "INSERT INTO blah (a, b) VALUES (now(), 1)").body :=
  ⟨by decide, by decide,
   modifyFrame_rewrite_preserves_header "sampleuuid"
     (mockQueryFrame "INSERT INTO blah (a, b) VALUES (now(), 1)")
     (parseQuery "INSERT INTO blah (a, b) VALUES (now(), 1)")
     (by decide) rfl (by decide)⟩

end ZdmProxy
